import Mathlib

/-!
Verification of the corpus preprocessing pipeline of this repository
(`src/tools/preprocess_data_enc_dec_lm.py`): the stochastic document chunker
(`Encoder.encode`), the coordinating loop of `main` that feeds the two indexed
dataset builders, and the append-only indexed dataset builder itself.

The tokenizer is external (text to token-id list); it enters the model as the
already-produced `doc_ids` list together with the raw line length.  The random
source `random.random()` enters as a stream `r : Nat → Nat` of raw draws (the
value `int(random.random() * 100)` of iteration `k` is `r k`); every draw in
the real program lies in `0..99`, but none of the results below need that
bound, since the mod-8 bucketing is total.
-/

set_option maxRecDepth 8000

/-- Bucketing of the raw draw into a window size `tmp ∈ {32, 64, 128, 256}`
(lines 92-100 of `preprocess_data_enc_dec_lm.py`).  The source's final
`else: assert 1>0` branch is unreachable because `d % 8 < 8`; the last
`elif tmp % 8 == 7` is rendered as the final `else` here. -/
def drawTmp (d : Nat) : Nat :=
  if d % 8 ≤ 3 then 32
  else if d % 8 ≤ 5 then 64
  else if d % 8 = 6 then 128
  else 256

/-- The split of one `piece` into `(context, label)`: the tentative split at
`tmp - 1` (lines 106-107), overridden by the length-bucket table when the
tentative label is shorter than 63 (lines 109-143).  Python's negative slices
`piece[:-n]` / `piece[-n:]` are `take (len - n)` / `drop (len - n)`, which
agrees with Python's clamping for `len < n` because `Nat` subtraction
truncates at 0. -/
def splitPiece (tmp : Nat) (piece : List Nat) : List Nat × List Nat :=
  if (piece.drop (tmp - 1)).length < 63 then
    if piece.length < 16 then (piece.take (piece.length - 7), piece.drop (piece.length - 7))
    else if piece.length < 24 then (piece.take 7, piece.drop 7)
    else if piece.length < 32 then (piece.take (piece.length - 15), piece.drop (piece.length - 15))
    else if piece.length < 48 then (piece.take 15, piece.drop 15)
    else if piece.length < 64 then (piece.take (piece.length - 31), piece.drop (piece.length - 31))
    else if piece.length < 96 then (piece.take 31, piece.drop 31)
    else if piece.length < 128 then (piece.take (piece.length - 63), piece.drop (piece.length - 63))
    else if piece.length < 192 then (piece.take 63, piece.drop 63)
    else if piece.length < 256 then (piece.take (piece.length - 127), piece.drop (piece.length - 127))
    else if piece.length < 384 then (piece.take 127, piece.drop 127)
    else if piece.length < 512 then (piece.take (piece.length - 255), piece.drop (piece.length - 255))
    else (piece.take (tmp - 1), piece.drop (tmp - 1))
  else (piece.take (tmp - 1), piece.drop (tmp - 1))

/-- The position at which `splitPiece` cuts its piece, as a function of the
piece's length alone.  `splitPiece tmp piece = (take cut, drop cut)` with
`cut = splitCut tmp piece.length` (proved below as `splitPiece_eq_cut`). -/
def splitCut (tmp L : Nat) : Nat :=
  if L - (tmp - 1) < 63 then
    if L < 16 then L - 7
    else if L < 24 then 7
    else if L < 32 then L - 15
    else if L < 48 then 15
    else if L < 64 then L - 31
    else if L < 96 then 31
    else if L < 128 then L - 63
    else if L < 192 then 63
    else if L < 256 then L - 127
    else if L < 384 then 127
    else if L < 512 then L - 255
    else tmp - 1
  else tmp - 1

/-- The segmentation loop of `Encoder.encode` (lines 90-154): starting at
offset `i` with draw index `k`, while `i < len(doc_ids)` draw `tmp`, take the
lookahead window `piece = doc_ids[i : i + tmp - 1 + 255]`, stop if it is
shorter than 12, otherwise split it and advance `i` by `tmp - 1`.  Each loop
iteration is recorded as `(i, tmp, context, label)`.  The `while` loop is
rendered with structural fuel; `fuel = len(doc_ids) - i` is enough because `i`
strictly increases (`chunkLoopF_stable` below shows any fuel at least that
large gives the same list, i.e. the loop terminates). -/
def chunkLoopF (r : Nat → Nat) (doc : List Nat) :
    Nat → Nat → Nat → List (Nat × Nat × List Nat × List Nat)
  | 0, _, _ => []
  | fuel + 1, k, i =>
    if i < doc.length then
      if ((doc.drop i).take (drawTmp (r k) - 1 + 255)).length < 12 then []
      else
        (i, drawTmp (r k), splitPiece (drawTmp (r k)) ((doc.drop i).take (drawTmp (r k) - 1 + 255)))
          :: chunkLoopF r doc fuel (k + 1) (i + (drawTmp (r k) - 1))
    else []

/-- All loop iterations of `Encoder.encode` on document `doc` (with the eod id
already appended), from `i = 0`. -/
def encodeChunks (r : Nat → Nat) (doc : List Nat) : List (Nat × Nat × List Nat × List Nat) :=
  chunkLoopF r doc doc.length 0 0

/-- `Encoder.encode` (lines 75-155).  `lineLen` is the raw character length of
the input line, `doc_ids` the tokenization of the stripped line, `eod` the
tokenizer's end-of-document id.  The sentinel return `(None, None, 0)` is
`none`; an accepted document returns the `contexts` and `labels` lists. -/
def encode (r : Nat → Nat) (lineLen : Nat) (doc_ids : List Nat) (eod : Nat) :
    Option (List (List Nat) × List (List Nat)) :=
  if 5000000 < lineLen then none
  else if doc_ids.length < 12 then none
  else
    some ((encodeChunks r (doc_ids ++ [eod])).map (fun e => e.2.2.1),
          (encodeChunks r (doc_ids ++ [eod])).map (fun e => e.2.2.2))

/-- Decidable conjunction of the two assertions guarding the append (lines
150-151): both resulting lengths lie strictly between 4 and 256. -/
def lensOk (p : Nat × Nat) : Prop :=
  (4 < p.1 ∧ p.1 < 256) ∧ (4 < p.2 ∧ p.2 < 256)

instance (p : Nat × Nat) : Decidable (lensOk p) := by unfold lensOk; infer_instance

/-- Context and label lengths produced by a cut of a piece of length `L`. -/
def cutLens (tmp L : Nat) : Nat × Nat := (min (splitCut tmp L) L, L - splitCut tmp L)

theorem drawTmp_cases (d : Nat) :
    drawTmp d = 32 ∨ drawTmp d = 64 ∨ drawTmp d = 128 ∨ drawTmp d = 256 := by
  unfold drawTmp; split_ifs <;> simp

theorem drawTmp_ge (d : Nat) : 32 ≤ drawTmp d := by
  unfold drawTmp; split_ifs <;> omega

theorem splitPiece_eq_cut (tmp : Nat) (piece : List Nat) :
    splitPiece tmp piece =
      (piece.take (splitCut tmp piece.length), piece.drop (splitCut tmp piece.length)) := by
  unfold splitPiece splitCut
  by_cases h0 : (piece.drop (tmp - 1)).length < 63
  · have h0b : piece.length - (tmp - 1) < 63 := by simpa using h0
    simp only [if_pos h0, if_pos h0b]
    by_cases h1 : piece.length < 16
    · simp only [if_pos h1]
    · simp only [if_neg h1]
      by_cases h2 : piece.length < 24
      · simp only [if_pos h2]
      · simp only [if_neg h2]
        by_cases h3 : piece.length < 32
        · simp only [if_pos h3]
        · simp only [if_neg h3]
          by_cases h4 : piece.length < 48
          · simp only [if_pos h4]
          · simp only [if_neg h4]
            by_cases h5 : piece.length < 64
            · simp only [if_pos h5]
            · simp only [if_neg h5]
              by_cases h6 : piece.length < 96
              · simp only [if_pos h6]
              · simp only [if_neg h6]
                by_cases h7 : piece.length < 128
                · simp only [if_pos h7]
                · simp only [if_neg h7]
                  by_cases h8 : piece.length < 192
                  · simp only [if_pos h8]
                  · simp only [if_neg h8]
                    by_cases h9 : piece.length < 256
                    · simp only [if_pos h9]
                    · simp only [if_neg h9]
                      by_cases h10 : piece.length < 384
                      · simp only [if_pos h10]
                      · simp only [if_neg h10]
                        by_cases h11 : piece.length < 512
                        · simp only [if_pos h11]
                        · simp only [if_neg h11]
  · have h0b : ¬(piece.length - (tmp - 1) < 63) := by simpa using h0
    simp only [if_neg h0, if_neg h0b]

theorem splitPiece_append (tmp : Nat) (piece : List Nat) :
    (splitPiece tmp piece).1 ++ (splitPiece tmp piece).2 = piece := by
  rw [splitPiece_eq_cut]
  exact List.take_append_drop _ piece

theorem splitPiece_lens (tmp : Nat) (piece : List Nat) :
    ((splitPiece tmp piece).1.length, (splitPiece tmp piece).2.length) =
      cutLens tmp piece.length := by
  rw [splitPiece_eq_cut]
  simp [cutLens, List.length_take, List.length_drop, Nat.min_comm]

theorem cutLens_ok_32 : ∀ L, L < 287 → 12 ≤ L → lensOk (cutLens 32 L) := by decide

theorem cutLens_ok_64 : ∀ L, L < 319 → 12 ≤ L → lensOk (cutLens 64 L) := by decide

theorem cutLens_ok_128 : ∀ L, L < 383 → 12 ≤ L → lensOk (cutLens 128 L) := by decide

theorem cutLens_ok_256 : ∀ L, L < 511 → 12 ≤ L → lensOk (cutLens 256 L) := by decide

theorem splitPiece_bounds (tmp : Nat) (piece : List Nat)
    (htmp : tmp = 32 ∨ tmp = 64 ∨ tmp = 128 ∨ tmp = 256)
    (h12 : 12 ≤ piece.length) (hub : piece.length ≤ tmp - 1 + 255) :
    lensOk ((splitPiece tmp piece).1.length, (splitPiece tmp piece).2.length) := by
  rw [splitPiece_lens]
  rcases htmp with rfl | rfl | rfl | rfl
  · exact cutLens_ok_32 _ (by omega) h12
  · exact cutLens_ok_64 _ (by omega) h12
  · exact cutLens_ok_128 _ (by omega) h12
  · exact cutLens_ok_256 _ (by omega) h12

theorem chunkLoopF_zero (r : Nat → Nat) (doc : List Nat) (k i : Nat) :
    chunkLoopF r doc 0 k i = [] := rfl

theorem chunkLoopF_succ (r : Nat → Nat) (doc : List Nat) (fuel k i : Nat) :
    chunkLoopF r doc (fuel + 1) k i =
      if i < doc.length then
        if ((doc.drop i).take (drawTmp (r k) - 1 + 255)).length < 12 then []
        else
          (i, drawTmp (r k),
            splitPiece (drawTmp (r k)) ((doc.drop i).take (drawTmp (r k) - 1 + 255)))
            :: chunkLoopF r doc fuel (k + 1) (i + (drawTmp (r k) - 1))
      else [] := rfl

theorem chunkLoopF_out (r : Nat → Nat) (doc : List Nat) (fuel k i : Nat)
    (h : ¬ i < doc.length) : chunkLoopF r doc fuel k i = [] := by
  cases fuel with
  | zero => rfl
  | succ fuel => rw [chunkLoopF_succ, if_neg h]

theorem chunkLoopF_mem (r : Nat → Nat) (doc : List Nat) :
    ∀ fuel k i, ∀ e ∈ chunkLoopF r doc fuel k i,
      (e.2.1 = 32 ∨ e.2.1 = 64 ∨ e.2.1 = 128 ∨ e.2.1 = 256) ∧
      i ≤ e.1 ∧ e.1 < doc.length ∧
      12 ≤ ((doc.drop e.1).take (e.2.1 - 1 + 255)).length ∧
      e.2.2 = splitPiece e.2.1 ((doc.drop e.1).take (e.2.1 - 1 + 255)) := by
  intro fuel
  induction fuel with
  | zero => intro k i e he; simp [chunkLoopF_zero] at he
  | succ fuel ih =>
    intro k i e he
    rw [chunkLoopF_succ] at he
    by_cases hi : i < doc.length
    · rw [if_pos hi] at he
      by_cases hp : ((doc.drop i).take (drawTmp (r k) - 1 + 255)).length < 12
      · rw [if_pos hp] at he; simp at he
      · rw [if_neg hp] at he
        rcases List.mem_cons.mp he with rfl | htl
        · exact ⟨drawTmp_cases (r k), Nat.le_refl i, hi, Nat.le_of_not_lt hp, rfl⟩
        · obtain ⟨h1, h2, h3, h4, h5⟩ := ih (k + 1) (i + (drawTmp (r k) - 1)) e htl
          have h32 := drawTmp_ge (r k)
          exact ⟨h1, by omega, h3, h4, h5⟩
    · rw [if_neg hi] at he; simp at he

theorem chunkLoopF_head_offset (r : Nat → Nat) (doc : List Nat) (fuel k i : Nat)
    (e : Nat × Nat × List Nat × List Nat) (tl : List (Nat × Nat × List Nat × List Nat))
    (h : chunkLoopF r doc fuel k i = e :: tl) : e.1 = i := by
  cases fuel with
  | zero => simp [chunkLoopF_zero] at h
  | succ fuel =>
    rw [chunkLoopF_succ] at h
    by_cases hi : i < doc.length
    · rw [if_pos hi] at h
      by_cases hp : ((doc.drop i).take (drawTmp (r k) - 1 + 255)).length < 12
      · rw [if_pos hp] at h; exact absurd h (by simp)
      · rw [if_neg hp] at h
        exact (congrArg (fun l => l.headI.1) h).symm ▸ rfl
    · rw [if_neg hi] at h; exact absurd h (by simp)

theorem chunkLoopF_chain (r : Nat → Nat) (doc : List Nat) :
    ∀ fuel k i, List.Chain' (fun a b => b.1 = a.1 + (a.2.1 - 1))
      (chunkLoopF r doc fuel k i) := by
  intro fuel
  induction fuel with
  | zero => intro k i; simp [chunkLoopF_zero]
  | succ fuel ih =>
    intro k i
    rw [chunkLoopF_succ]
    by_cases hi : i < doc.length
    · rw [if_pos hi]
      by_cases hp : ((doc.drop i).take (drawTmp (r k) - 1 + 255)).length < 12
      · rw [if_pos hp]; simp
      · rw [if_neg hp]
        refine List.chain'_cons'.mpr ⟨?_, ih (k + 1) (i + (drawTmp (r k) - 1))⟩
        intro y hy
        cases hcl : chunkLoopF r doc fuel (k + 1) (i + (drawTmp (r k) - 1)) with
        | nil => rw [hcl] at hy; simp at hy
        | cons e tl =>
          rw [hcl] at hy
          simp only [List.head?_cons, Option.mem_def, Option.some.injEq] at hy
          subst hy
          exact chunkLoopF_head_offset r doc fuel (k + 1) (i + (drawTmp (r k) - 1)) e tl hcl
    · rw [if_neg hi]; simp

theorem chunkLoopF_length (r : Nat → Nat) (doc : List Nat) :
    ∀ fuel k i, (chunkLoopF r doc fuel k i).length ≤ doc.length - i := by
  intro fuel
  induction fuel with
  | zero => intro k i; simp [chunkLoopF_zero]
  | succ fuel ih =>
    intro k i
    rw [chunkLoopF_succ]
    by_cases hi : i < doc.length
    · rw [if_pos hi]
      by_cases hp : ((doc.drop i).take (drawTmp (r k) - 1 + 255)).length < 12
      · rw [if_pos hp]; simp
      · rw [if_neg hp]
        have htl := ih (k + 1) (i + (drawTmp (r k) - 1))
        have h32 := drawTmp_ge (r k)
        simp only [List.length_cons]
        omega
    · rw [if_neg hi]; simp

theorem chunkLoopF_stable (r : Nat → Nat) (doc : List Nat) :
    ∀ f1 f2 k i, doc.length - i ≤ f1 → doc.length - i ≤ f2 →
      chunkLoopF r doc f1 k i = chunkLoopF r doc f2 k i := by
  intro f1
  induction f1 with
  | zero =>
    intro f2 k i h1 h2
    have hi : ¬ i < doc.length := by omega
    rw [chunkLoopF_zero, chunkLoopF_out r doc f2 k i hi]
  | succ f1 ih =>
    intro f2 k i h1 h2
    by_cases hi : i < doc.length
    · cases f2 with
      | zero => omega
      | succ f2 =>
        rw [chunkLoopF_succ, chunkLoopF_succ, if_pos hi, if_pos hi]
        by_cases hp : ((doc.drop i).take (drawTmp (r k) - 1 + 255)).length < 12
        · rw [if_pos hp, if_pos hp]
        · rw [if_neg hp, if_neg hp]
          have h32 := drawTmp_ge (r k)
          rw [ih f2 (k + 1) (i + (drawTmp (r k) - 1)) (by omega) (by omega)]
    · rw [chunkLoopF_out r doc _ k i hi, chunkLoopF_out r doc _ k i hi]

/-- Modelled from the spec: the indexed dataset Builder (`data.indexed_dataset`,
imported by the tool but not under `src/`).  Spec 4.3: `add_item` appends the
sequence's raw elements to the bin file in dtype-native encoding (the bin file
grows by `itemWidth * len` bytes), records the sequence's length in the size
index.  The records themselves are kept so that the written order is
observable. -/
structure Builder where
  itemWidth : Nat
  records : List (List Nat)
  binBytes : Nat

/-- Modelled from the spec: a fresh Builder for an element dtype of width
`w` bytes (spec 4.3 `open(binPath, dtype)`). -/
def Builder.empty (w : Nat) : Builder := ⟨w, [], 0⟩

/-- Modelled from the spec: `add_item` (spec 4.3). -/
def Builder.add_item (b : Builder) (xs : List Nat) : Builder :=
  ⟨b.itemWidth, b.records ++ [xs], b.binBytes + b.itemWidth * xs.length⟩

/-- The per-record element counts of a Builder (the size index). -/
def Builder.sizes (b : Builder) : List Nat := b.records.map List.length

/-- Modelled from the spec: the pointer array written at finalize — one byte
offset per record, accumulated sequentially (spec 3: `pointer[i] = itemSize *
sum(size[0..i-1])`, maintained by appending the running byte address). -/
def pointersFrom (w : Nat) : List Nat → Nat → List Nat
  | [], _ => []
  | s :: rest, addr => addr :: pointersFrom w rest (addr + w * s)

/-- Modelled from the spec: `finalize` writes the size array and the pointer
array of the index file (spec 4.3); the pair of those arrays is returned. -/
def Builder.finalize (b : Builder) : List Nat × List Nat :=
  (b.sizes, pointersFrom b.itemWidth b.sizes 0)

/-- A Builder that has received the given records in order, one `add_item`
call each. -/
def Builder.build (w : Nat) (records : List (List Nat)) : Builder :=
  records.foldl Builder.add_item (Builder.empty w)

/-- One non-rejected result of the encode stream being reduced into the two
builders: `for pids, lids in zip(pair_ids, label_ids): builder_context.add_item
(pids); builder_target.add_item(lids)` (lines 226-228 of the tool). -/
def addDocItems (b : Builder × Builder) (pair_ids label_ids : List (List Nat)) :
    Builder × Builder :=
  (pair_ids.zip label_ids).foldl (fun b2 pl => (b2.1.add_item pl.1, b2.2.add_item pl.2)) b

/-- The coordinating loop of `main` (lines 221-228): a sequential reduction
over the (possibly reordered) result stream, skipping rejected documents. -/
def mainLoop (results : List (Option (List (List Nat) × List (List Nat))))
    (b : Builder × Builder) : Builder × Builder :=
  results.foldl
    (fun b2 res =>
      match res with
      | none => b2
      | some d => addDocItems b2 d.1 d.2) b

/-- The chunk pairs of the result stream, flattened in reduction order: for
each non-rejected document, the zip of its context list and its label list. -/
def flatPairs (results : List (Option (List (List Nat) × List (List Nat)))) :
    List (List Nat × List Nat) :=
  (results.map (fun res =>
    match res with
    | none => []
    | some d => d.1.zip d.2)).flatten

/-- The override bucket table of `Encoder.encode` as the spec describes it:
ordered `(upperBound, fixedSize, fixedPartAtBack)` rows for the ranges
`[16,24,32,48,64,96,128,192,256,384,512)`, the fixed-size part alternating
between the back (suffix) and the front of the piece. -/
def overrideTable : List (Nat × Nat × Bool) :=
  [(16, 7, true), (24, 7, false), (32, 15, true), (48, 15, false),
   (64, 31, true), (96, 31, false), (128, 63, true), (192, 63, false),
   (256, 127, true), (384, 127, false), (512, 255, true)]

/-- First-match evaluation of an override table row: the first row whose upper
bound exceeds the piece length decides the split; if the fixed part sits at
the back the cut is `len - fixedSize`, otherwise the cut is `fixedSize`; when
no row matches the tentative split is kept. -/
def tableSplit : List (Nat × Nat × Bool) → List Nat → List Nat × List Nat → List Nat × List Nat
  | [], _, tentative => tentative
  | row :: rest, piece, tentative =>
    if piece.length < row.1 then
      if row.2.2 then
        (piece.take (piece.length - row.2.1), piece.drop (piece.length - row.2.1))
      else (piece.take row.2.1, piece.drop row.2.1)
    else tableSplit rest piece tentative

theorem add_item_records (b : Builder) (xs : List Nat) :
    (b.add_item xs).records = b.records ++ [xs] := rfl

theorem pairsFold_records (l : List (List Nat × List Nat)) :
    ∀ b : Builder × Builder,
      (l.foldl (fun b2 pl => (b2.1.add_item pl.1, b2.2.add_item pl.2)) b).1.records
          = b.1.records ++ l.map Prod.fst ∧
      (l.foldl (fun b2 pl => (b2.1.add_item pl.1, b2.2.add_item pl.2)) b).2.records
          = b.2.records ++ l.map Prod.snd := by
  induction l with
  | nil => intro b; simp
  | cons p l ih =>
    intro b
    obtain ⟨ih1, ih2⟩ := ih (b.1.add_item p.1, b.2.add_item p.2)
    simp only [List.foldl_cons, List.map_cons]
    constructor
    · rw [ih1, add_item_records, List.append_assoc]; rfl
    · rw [ih2, add_item_records, List.append_assoc]; rfl

theorem addDocItems_records (b : Builder × Builder) (pair_ids label_ids : List (List Nat)) :
    (addDocItems b pair_ids label_ids).1.records
        = b.1.records ++ (pair_ids.zip label_ids).map Prod.fst ∧
    (addDocItems b pair_ids label_ids).2.records
        = b.2.records ++ (pair_ids.zip label_ids).map Prod.snd :=
  pairsFold_records (pair_ids.zip label_ids) b

theorem mainLoop_records (results : List (Option (List (List Nat) × List (List Nat)))) :
    ∀ b : Builder × Builder,
      (mainLoop results b).1.records = b.1.records ++ (flatPairs results).map Prod.fst ∧
      (mainLoop results b).2.records = b.2.records ++ (flatPairs results).map Prod.snd := by
  induction results with
  | nil => intro b; simp [mainLoop, flatPairs]
  | cons res results ih =>
    intro b
    cases res with
    | none =>
      obtain ⟨ih1, ih2⟩ := ih b
      simp only [mainLoop, List.foldl_cons] at *
      simp only [flatPairs, List.map_cons, List.flatten] at *
      exact ⟨ih1, ih2⟩
    | some d =>
      obtain ⟨ih1, ih2⟩ := ih (addDocItems b d.1 d.2)
      obtain ⟨ha1, ha2⟩ := addDocItems_records b d.1 d.2
      simp only [mainLoop, List.foldl_cons] at *
      constructor
      · rw [ih1, ha1, List.append_assoc]
        simp [flatPairs]
      · rw [ih2, ha2, List.append_assoc]
        simp [flatPairs]

theorem pointersFrom_length (w : Nat) :
    ∀ (sizes : List Nat) (addr : Nat), (pointersFrom w sizes addr).length = sizes.length := by
  intro sizes
  induction sizes with
  | nil => intro addr; rfl
  | cons s rest ih => intro addr; simp [pointersFrom, ih]

theorem pointersFrom_get (w : Nat) :
    ∀ (sizes : List Nat) (addr i : Nat) (h : i < (pointersFrom w sizes addr).length),
      (pointersFrom w sizes addr).get ⟨i, h⟩ = addr + w * ((sizes.take i).sum) := by
  intro sizes
  induction sizes with
  | nil => intro addr i h; simp [pointersFrom] at h
  | cons s rest ih =>
    intro addr i h
    cases i with
    | zero => simp [pointersFrom]
    | succ i =>
      have := ih (addr + w * s) i (by simpa [pointersFrom] using h)
      simp only [pointersFrom, List.get_cons_succ]
      rw [this]
      simp [List.take_succ_cons, Nat.mul_add]
      ring

theorem build_foldl_records (records : List (List Nat)) :
    ∀ b : Builder, (records.foldl Builder.add_item b).records = b.records ++ records := by
  induction records with
  | nil => intro b; simp
  | cons x rest ih =>
    intro b
    simp only [List.foldl_cons]
    rw [ih (b.add_item x), add_item_records, List.append_assoc]
    rfl

theorem build_foldl_width (records : List (List Nat)) :
    ∀ b : Builder, (records.foldl Builder.add_item b).itemWidth = b.itemWidth := by
  induction records with
  | nil => intro b; rfl
  | cons x rest ih => intro b; simp only [List.foldl_cons]; rw [ih]; rfl

theorem build_records (w : Nat) (records : List (List Nat)) :
    (Builder.build w records).records = records := by
  unfold Builder.build
  rw [build_foldl_records]
  rfl

theorem build_width (w : Nat) (records : List (List Nat)) :
    (Builder.build w records).itemWidth = w := by
  unfold Builder.build
  rw [build_foldl_width]
  rfl

theorem encodeChunks_first (r : Nat → Nat) (doc : List Nat) (h13 : 13 ≤ doc.length) :
    ∃ rest, encodeChunks r doc =
      (0, drawTmp (r 0), splitPiece (drawTmp (r 0)) (doc.take (drawTmp (r 0) - 1 + 255)))
        :: rest ∧
      12 ≤ (doc.take (drawTmp (r 0) - 1 + 255)).length := by
  obtain ⟨n, hn⟩ : ∃ n, doc.length = n + 1 := ⟨doc.length - 1, by omega⟩
  have h32 := drawTmp_ge (r 0)
  have hplen : 12 ≤ (doc.take (drawTmp (r 0) - 1 + 255)).length := by
    rw [List.length_take]
    omega
  refine ⟨chunkLoopF r doc n 1 (drawTmp (r 0) - 1), ?_, hplen⟩
  unfold encodeChunks
  rw [hn, chunkLoopF_succ, if_pos (by omega : 0 < doc.length)]
  rw [List.drop_zero]
  rw [if_neg (by omega : ¬ (doc.take (drawTmp (r 0) - 1 + 255)).length < 12)]
  simp

theorem zip_map_pair {α β γ : Type} (f : α → β) (g : α → γ) (l : List α) :
    (l.map f).zip (l.map g) = l.map (fun x => (f x, g x)) := by
  induction l with
  | nil => rfl
  | cons x xs ih => simp [ih]

theorem tableSplit_eval (piece : List Nat) (tentative : List Nat × List Nat) :
    tableSplit overrideTable piece tentative =
      if piece.length < 16 then (piece.take (piece.length - 7), piece.drop (piece.length - 7))
      else if piece.length < 24 then (piece.take 7, piece.drop 7)
      else if piece.length < 32 then (piece.take (piece.length - 15), piece.drop (piece.length - 15))
      else if piece.length < 48 then (piece.take 15, piece.drop 15)
      else if piece.length < 64 then (piece.take (piece.length - 31), piece.drop (piece.length - 31))
      else if piece.length < 96 then (piece.take 31, piece.drop 31)
      else if piece.length < 128 then (piece.take (piece.length - 63), piece.drop (piece.length - 63))
      else if piece.length < 192 then (piece.take 63, piece.drop 63)
      else if piece.length < 256 then (piece.take (piece.length - 127), piece.drop (piece.length - 127))
      else if piece.length < 384 then (piece.take 127, piece.drop 127)
      else if piece.length < 512 then (piece.take (piece.length - 255), piece.drop (piece.length - 255))
      else tentative := by
  simp only [overrideTable, tableSplit]
  norm_num

/-- C2: after any run of the coordinating loop, the context builder and the
target builder hold exactly the records `Prod.fst` respectively `Prod.snd` of
the flattened chunk-pair stream, in the same relative order; in particular
they received the same number of `add_item` calls and the k-th records of the
two builders come from the same chunk pair. -/
theorem claim2_pairing (results : List (Option (List (List Nat) × List (List Nat)))) :
    (mainLoop results (Builder.empty 2, Builder.empty 2)).1.records
        = (flatPairs results).map Prod.fst ∧
    (mainLoop results (Builder.empty 2, Builder.empty 2)).2.records
        = (flatPairs results).map Prod.snd ∧
    (mainLoop results (Builder.empty 2, Builder.empty 2)).1.records.length
        = (mainLoop results (Builder.empty 2, Builder.empty 2)).2.records.length := by
  obtain ⟨h1, h2⟩ := mainLoop_records results (Builder.empty 2, Builder.empty 2)
  have h1e : (mainLoop results (Builder.empty 2, Builder.empty 2)).1.records
      = (flatPairs results).map Prod.fst := by simpa [Builder.empty] using h1
  have h2e : (mainLoop results (Builder.empty 2, Builder.empty 2)).2.records
      = (flatPairs results).map Prod.snd := by simpa [Builder.empty] using h2
  refine ⟨h1e, h2e, ?_⟩
  rw [h1e, h2e]
  simp

/-- C3: `Encoder.encode` returns the no-output sentinel exactly when the raw
line exceeds 5,000,000 characters or the tokenized document has fewer than 12
ids before the eod id is appended; in particular an input tokenizing to
exactly 11 ids yields the sentinel. -/
theorem claim3_sentinel_iff (r : Nat → Nat) (lineLen : Nat) (doc_ids : List Nat) (eod : Nat) :
    (encode r lineLen doc_ids eod = none ↔ 5000000 < lineLen ∨ doc_ids.length < 12) ∧
    encode r lineLen (List.replicate 11 5) eod = none := by
  constructor
  · unfold encode
    split_ifs with h1 h2
    · simp [h1]
    · simp [h2]
    · simp [h1, h2]
  · unfold encode
    split_ifs with h1 h2
    · rfl
    · rfl
    · exact absurd (by simp : (List.replicate 11 5).length < 12) h2

/-- C4 counterexample: of the 100 equally likely raw draws 0..99, the number
mapping to window size 32 is not 50 (it is 52), refuting the claimed exact
4/8, 2/8, 1/8, 1/8 distribution. -/
theorem claim4_counterexample :
    ¬ ((List.range 100).filter (fun d => drawTmp d = 32)).length = 50 := by decide

/-- C4 amended: the mod-8 bucketing maps residues 0-3 to 32, residues 4-5 to
64, residue 6 to 128 and residue 7 to 256; over the 100 equally likely draws
0..99 the counts are 52, 24, 12 and 12 (probabilities 13/25, 6/25, 3/25, 3/25),
not 50, 25, 12.5, 12.5. -/
theorem claim4_distribution :
    ((List.range 100).filter (fun d => drawTmp d = 32)).length = 52 ∧
    ((List.range 100).filter (fun d => drawTmp d = 64)).length = 24 ∧
    ((List.range 100).filter (fun d => drawTmp d = 128)).length = 12 ∧
    ((List.range 100).filter (fun d => drawTmp d = 256)).length = 12 ∧
    (∀ d, d % 8 ≤ 3 → drawTmp d = 32) ∧
    (∀ d, 4 ≤ d % 8 → d % 8 ≤ 5 → drawTmp d = 64) ∧
    (∀ d, d % 8 = 6 → drawTmp d = 128) ∧
    (∀ d, d % 8 = 7 → drawTmp d = 256) := by
  refine ⟨by decide, by decide, by decide, by decide, ?_, ?_, ?_, ?_⟩ <;>
    (intro d; unfold drawTmp; split_ifs <;> omega)

/-- Witness for `claim4_distribution` at concrete draws. -/
theorem claim4_distribution_witness :
    drawTmp 3 = 32 ∧ drawTmp 4 = 64 ∧ drawTmp 6 = 128 ∧ drawTmp 7 = 256 :=
  ⟨claim4_distribution.2.2.2.2.1 3 (by decide),
   claim4_distribution.2.2.2.2.2.1 4 (by decide) (by decide),
   claim4_distribution.2.2.2.2.2.2.1 6 (by decide),
   claim4_distribution.2.2.2.2.2.2.2 7 (by decide)⟩

/-- C5 counterexample: for a piece of length 16 with `tmp = 32` the override
applies (the tentative label is empty) and lands in the bucket `[16,24)`,
whose fixed-size part is the 7-element front of the piece; the resulting
split is `(7, 9)`, so the fixed-size part is the smaller part of the split,
refuting the claim that in every bucket the fixed-size part is the larger
part. -/
theorem claim5_counterexample :
    splitPiece 32 (List.range 16) = ((List.range 16).take 7, (List.range 16).drop 7) ∧
    (splitPiece 32 (List.range 16)).1.length < (splitPiece 32 (List.range 16)).2.length := by
  decide

/-- C5 amended: whenever the tentative label is shorter than 63, the split is
overridden by first-match evaluation of the ordered bucket table with upper
bounds 16, 24, 32, 48, 64, 96, 128, 192, 256, 384, 512 and fixed sizes 7, 7,
15, 15, 31, 31, 63, 63, 127, 127, 255, the fixed-size part alternating by
bucket index between a suffix and a distinct front part of the piece (the
fixed-size part need not be the larger part of the split); when
`len(piece) ≥ 512` no bucket matches and the tentative split is kept. -/
theorem claim5_override_table (tmp : Nat) (piece : List Nat) :
    splitPiece tmp piece =
      if (piece.drop (tmp - 1)).length < 63 then
        tableSplit overrideTable piece (piece.take (tmp - 1), piece.drop (tmp - 1))
      else (piece.take (tmp - 1), piece.drop (tmp - 1)) := by
  rw [tableSplit_eval]
  unfold splitPiece
  rfl

/-- C8: after a Builder is finalized, the pointer of record `i` equals the
element width times the sum of the sizes of all earlier records; for the toy
run of three records of lengths 3, 5, 2 at element width 2 the bin file is 20
bytes, the pointer array is `[0, 6, 16]` and the size array is `[3, 5, 2]`. -/
theorem claim8_pointer_invariant (w : Nat) (records : List (List Nat)) (i : Nat)
    (h : i < ((Builder.build w records).finalize).2.length) :
    ((Builder.build w records).finalize).2.get ⟨i, h⟩ =
      w * ((((Builder.build w records).finalize).1.take i).sum) ∧
    (Builder.build 2 [[9, 9, 9], [8, 8, 8, 8, 8], [7, 7]]).binBytes = 20 ∧
    ((Builder.build 2 [[9, 9, 9], [8, 8, 8, 8, 8], [7, 7]]).finalize).2 = [0, 6, 16] ∧
    ((Builder.build 2 [[9, 9, 9], [8, 8, 8, 8, 8], [7, 7]]).finalize).1 = [3, 5, 2] := by
  refine ⟨?_, by decide, by decide, by decide⟩
  have hg := pointersFrom_get ((Builder.build w records).itemWidth)
    ((Builder.build w records).sizes) 0 i h
  calc ((Builder.build w records).finalize).2.get ⟨i, h⟩
      = (Builder.build w records).itemWidth *
          ((((Builder.build w records).sizes).take i).sum) := hg.trans (Nat.zero_add _)
    _ = w * ((((Builder.build w records).finalize).1.take i).sum) := by
        rw [build_width w records]
        rfl

/-- Witness for `claim8_pointer_invariant` at the toy run, record index 2. -/
theorem claim8_pointer_invariant_witness :
    ((Builder.build 2 [[9, 9, 9], [8, 8, 8, 8, 8], [7, 7]]).finalize).2.get ⟨2, by decide⟩ =
      2 * ((((Builder.build 2 [[9, 9, 9], [8, 8, 8, 8, 8], [7, 7]]).finalize).1.take 2).sum) :=
  (claim8_pointer_invariant 2 [[9, 9, 9], [8, 8, 8, 8, 8], [7, 7]] 2 (by decide)).1

theorem encode_some_elim (r : Nat → Nat) (lineLen : Nat) (doc_ids : List Nat) (eod : Nat)
    (out : List (List Nat) × List (List Nat)) (h : encode r lineLen doc_ids eod = some out) :
    out = ((encodeChunks r (doc_ids ++ [eod])).map (fun e => e.2.2.1),
           (encodeChunks r (doc_ids ++ [eod])).map (fun e => e.2.2.2)) := by
  unfold encode at h
  by_cases h1 : 5000000 < lineLen
  · rw [if_pos h1] at h; exact absurd h (by simp)
  · rw [if_neg h1] at h
    by_cases h2 : doc_ids.length < 12
    · rw [if_pos h2] at h; exact absurd h (by simp)
    · rw [if_neg h2] at h
      rw [Option.some.injEq] at h
      exact h.symm

/-- C1: for every accepted input (every doc_ids list and every draw stream
that pass the rejection checks), every context and every label produced by
`Encoder.encode` has length strictly between 4 and 256 — the two assertions
guarding the append never fire. -/
theorem claim1_assertions_hold (r : Nat → Nat) (lineLen : Nat) (doc_ids : List Nat) (eod : Nat)
    (out : List (List Nat) × List (List Nat)) (h : encode r lineLen doc_ids eod = some out) :
    (∀ c ∈ out.1, 4 < c.length ∧ c.length < 256) ∧
    (∀ l ∈ out.2, 4 < l.length ∧ l.length < 256) := by
  obtain rfl := encode_some_elim r lineLen doc_ids eod out h
  constructor
  · intro c hc
    rw [List.mem_map] at hc
    obtain ⟨e, he, rfl⟩ := hc
    obtain ⟨htmp, _, _, h12, hsplit⟩ :=
      chunkLoopF_mem r (doc_ids ++ [eod]) (doc_ids ++ [eod]).length 0 0 e he
    have hub : (((doc_ids ++ [eod]).drop e.1).take (e.2.1 - 1 + 255)).length ≤ e.2.1 - 1 + 255 :=
      List.length_take_le _ _
    have hb := splitPiece_bounds e.2.1 _ htmp h12 hub
    rw [← hsplit] at hb
    exact hb.1
  · intro l hl
    rw [List.mem_map] at hl
    obtain ⟨e, he, rfl⟩ := hl
    obtain ⟨htmp, _, _, h12, hsplit⟩ :=
      chunkLoopF_mem r (doc_ids ++ [eod]) (doc_ids ++ [eod]).length 0 0 e he
    have hub : (((doc_ids ++ [eod]).drop e.1).take (e.2.1 - 1 + 255)).length ≤ e.2.1 - 1 + 255 :=
      List.length_take_le _ _
    have hb := splitPiece_bounds e.2.1 _ htmp h12 hub
    rw [← hsplit] at hb
    exact hb.2

/-- Witness for `claim1_assertions_hold`: a 12-token document with eod id 7
produces the single context of length 6, whose bounds the theorem certifies. -/
theorem claim1_witness :
    4 < ((List.replicate 12 (5:Nat) ++ [7]).take 6).length ∧
    ((List.replicate 12 (5:Nat) ++ [7]).take 6).length < 256 :=
  (claim1_assertions_hold (fun _ => 0) 0 (List.replicate 12 5) 7
      ([(List.replicate 12 (5:Nat) ++ [7]).take 6], [(List.replicate 12 (5:Nat) ++ [7]).drop 6])
      (by decide)).1
    _ (by decide)

/-- C10: every chunk pair emitted by `Encoder.encode` concatenates back to
the piece it was split from — the contiguous slice
`doc_ids[j : j + tmp - 1 + 255]` at the loop offset that produced it, for a
window size `tmp` drawn from {32, 64, 128, 256}. -/
theorem claim10_concat_piece (r : Nat → Nat) (lineLen : Nat) (doc_ids : List Nat) (eod : Nat)
    (out : List (List Nat) × List (List Nat)) (h : encode r lineLen doc_ids eod = some out) :
    ∀ p ∈ out.1.zip out.2, ∃ j tmp,
      (tmp = 32 ∨ tmp = 64 ∨ tmp = 128 ∨ tmp = 256) ∧
      p.1 ++ p.2 = ((doc_ids ++ [eod]).drop j).take (tmp - 1 + 255) := by
  obtain rfl := encode_some_elim r lineLen doc_ids eod out h
  intro p hp
  rw [zip_map_pair, List.mem_map] at hp
  obtain ⟨e, he, rfl⟩ := hp
  obtain ⟨htmp, _, _, _, hsplit⟩ :=
    chunkLoopF_mem r (doc_ids ++ [eod]) (doc_ids ++ [eod]).length 0 0 e he
  refine ⟨e.1, e.2.1, htmp, ?_⟩
  show e.2.2.1 ++ e.2.2.2 = _
  rw [hsplit]
  exact splitPiece_append e.2.1 _

/-- Witness for `claim10_concat_piece` on the 12-token document. -/
theorem claim10_witness :
    ∃ j tmp, (tmp = 32 ∨ tmp = 64 ∨ tmp = 128 ∨ tmp = 256) ∧
      (((List.replicate 12 (5:Nat) ++ [7]).take 6,
        (List.replicate 12 (5:Nat) ++ [7]).drop 6) :
          List Nat × List Nat).1 ++
        ((List.replicate 12 (5:Nat) ++ [7]).take 6,
         (List.replicate 12 (5:Nat) ++ [7]).drop 6).2 =
        ((List.replicate 12 (5:Nat) ++ [7]).drop j).take (tmp - 1 + 255) :=
  claim10_concat_piece (fun _ => 0) 0 (List.replicate 12 5) 7
    ([(List.replicate 12 (5:Nat) ++ [7]).take 6], [(List.replicate 12 (5:Nat) ++ [7]).drop 6])
    (by decide) _ (by decide)

/-- C6: the segmentation loop terminates and is structurally tame: successive
recorded offsets satisfy `next = current + (tmp - 1)` with `tmp - 1 ≥ 31`
(offsets strictly increase and the windows are consumed in non-decreasing
offset order), every recorded offset lies inside the document, the number of
iterations is bounded by `len(doc_ids)`, and any fuel of at least
`len(doc) - i` yields the same run — the while loop needs only finitely many
steps. -/
theorem claim6_loop_structure (r : Nat → Nat) (doc : List Nat) (fuel k i : Nat) :
    List.Chain' (fun a b => b.1 = a.1 + (a.2.1 - 1)) (chunkLoopF r doc fuel k i) ∧
    (∀ e ∈ chunkLoopF r doc fuel k i, 31 ≤ e.2.1 - 1 ∧ i ≤ e.1 ∧ e.1 < doc.length) ∧
    (chunkLoopF r doc fuel k i).length ≤ doc.length - i ∧
    (∀ extra, chunkLoopF r doc (doc.length - i + extra) k i =
      chunkLoopF r doc (doc.length - i) k i) := by
  refine ⟨chunkLoopF_chain r doc fuel k i, ?_, chunkLoopF_length r doc fuel k i, ?_⟩
  · intro e he
    obtain ⟨htmp, hi, hlt, _, _⟩ := chunkLoopF_mem r doc fuel k i e he
    have h32 : 32 ≤ e.2.1 := by rcases htmp with h | h | h | h <;> omega
    exact ⟨by omega, hi, hlt⟩
  · intro extra
    exact chunkLoopF_stable r doc (doc.length - i + extra) (doc.length - i) k i
      (by omega) (by omega)

/-- Witness for `claim6_loop_structure`: the single iteration on a 40-token
document with constant draw 0 records offset 0 with window size 32. -/
theorem claim6_witness :
    31 ≤ (((0, 32, List.replicate 15 (5:Nat), List.replicate 25 (5:Nat)) :
        Nat × Nat × List Nat × List Nat)).2.1 - 1 ∧
    0 ≤ ((0, 32, List.replicate 15 (5:Nat), List.replicate 25 (5:Nat)) :
        Nat × Nat × List Nat × List Nat).1 ∧
    ((0, 32, List.replicate 15 (5:Nat), List.replicate 25 (5:Nat)) :
        Nat × Nat × List Nat × List Nat).1 < (List.replicate 40 (5:Nat)).length :=
  (claim6_loop_structure (fun _ => 0) (List.replicate 40 5) 40 0 0).2.1 _ (by decide)

/-- C9: every input line that passes both rejection checks yields at least one
chunk pair: the contexts and labels lists are non-empty, and the first piece
(the concatenation of the first pair) has at least 12 tokens. -/
theorem claim9_accepted_nonempty (r : Nat → Nat) (lineLen : Nat) (doc_ids : List Nat) (eod : Nat)
    (hline : lineLen ≤ 5000000) (hlen : 12 ≤ doc_ids.length) :
    ∃ out, encode r lineLen doc_ids eod = some out ∧ out.1 ≠ [] ∧ out.2 ≠ [] ∧
      12 ≤ out.1.headI.length + out.2.headI.length := by
  have h13 : 13 ≤ (doc_ids ++ [eod]).length := by
    rw [List.length_append]
    simp
    omega
  obtain ⟨rest, hchunks, h12⟩ := encodeChunks_first r (doc_ids ++ [eod]) h13
  refine ⟨((encodeChunks r (doc_ids ++ [eod])).map (fun e => e.2.2.1),
           (encodeChunks r (doc_ids ++ [eod])).map (fun e => e.2.2.2)), ?_, ?_, ?_, ?_⟩
  · unfold encode
    rw [if_neg (by omega), if_neg (by omega)]
  · rw [hchunks]; simp
  · rw [hchunks]; simp
  · rw [hchunks]
    simp only [List.map_cons, List.headI]
    have happ := congrArg List.length
      (splitPiece_append (drawTmp (r 0)) ((doc_ids ++ [eod]).take (drawTmp (r 0) - 1 + 255)))
    rw [List.length_append] at happ
    omega

/-- Witness for `claim9_accepted_nonempty` on a 12-token document. -/
theorem claim9_witness :
    ∃ out, encode (fun _ => 0) 0 (List.replicate 12 5) 7 = some out ∧
      out.1 ≠ [] ∧ out.2 ≠ [] ∧ 12 ≤ out.1.headI.length + out.2.headI.length :=
  claim9_accepted_nonempty (fun _ => 0) 0 (List.replicate 12 5) 7 (by decide) (by decide)

/-- C7: for every accepted document whose doc_ids with the eod id appended has
length 40, whatever the draws, `Encoder.encode` emits at least one chunk pair
whose lengths sum to at most 40 and both lie strictly between 4 and 256. -/
theorem claim7_doc40 (r : Nat → Nat) (lineLen : Nat) (doc_ids : List Nat) (eod : Nat)
    (out : List (List Nat) × List (List Nat))
    (hlen : (doc_ids ++ [eod]).length = 40)
    (h : encode r lineLen doc_ids eod = some out) :
    ∃ p ∈ out.1.zip out.2,
      p.1.length + p.2.length ≤ 40 ∧
      (4 < p.1.length ∧ p.1.length < 256) ∧ (4 < p.2.length ∧ p.2.length < 256) := by
  obtain rfl := encode_some_elim r lineLen doc_ids eod out h
  obtain ⟨rest, hchunks, h12⟩ := encodeChunks_first r (doc_ids ++ [eod]) (by omega)
  have h32 := drawTmp_ge (r 0)
  have hpl : ((doc_ids ++ [eod]).take (drawTmp (r 0) - 1 + 255)).length = 40 := by
    rw [List.length_take]
    omega
  have hb := splitPiece_bounds (drawTmp (r 0))
    ((doc_ids ++ [eod]).take (drawTmp (r 0) - 1 + 255)) (drawTmp_cases (r 0))
    (by omega) (by omega)
  have happ := congrArg List.length
    (splitPiece_append (drawTmp (r 0)) ((doc_ids ++ [eod]).take (drawTmp (r 0) - 1 + 255)))
  rw [List.length_append] at happ
  refine ⟨((splitPiece (drawTmp (r 0)) ((doc_ids ++ [eod]).take (drawTmp (r 0) - 1 + 255))).1,
           (splitPiece (drawTmp (r 0)) ((doc_ids ++ [eod]).take (drawTmp (r 0) - 1 + 255))).2),
          ?_, by dsimp only; omega, hb.1, hb.2⟩
  rw [zip_map_pair, hchunks, List.map_cons]
  exact List.mem_cons_self _ _

/-- Witness for `claim7_doc40`: a document of 39 copies of token 5 plus eod
id 7, with constant draw 0. -/
theorem claim7_witness :
    ∃ p ∈ ([List.replicate 15 (5:Nat)].zip [List.replicate 24 (5:Nat) ++ [7]]),
      p.1.length + p.2.length ≤ 40 ∧
      (4 < p.1.length ∧ p.1.length < 256) ∧ (4 < p.2.length ∧ p.2.length < 256) :=
  claim7_doc40 (fun _ => 0) 0 (List.replicate 39 5) 7
    ([List.replicate 15 (5:Nat)], [List.replicate 24 (5:Nat) ++ [7]])
    (by decide) (by decide)
